import Mathlib

/-!
Shallow embedding of the core of `yahoo_stock_dl` (MIP_analyzer/stock_analyzer.py):
granularity detection, the strategy catalog, the investment simulator with its
calendar-stepped contribution schedule, and the best/worst ranking scan.

Timestamps are modelled as a proleptic-Gregorian calendar value (the semantics of
Python `datetime`/`pandas.Timestamp` field updates, comparisons and timedelta
addition used by the source), with seconds-within-day resolution.  Money and
prices are modelled as exact rationals; the source's float division by zero
(ZeroDivisionError / numpy NaN) and its out-of-range `.iloc[-1]` lookup are
modelled as `Except` errors.
-/

namespace StockDL

/-- A Python `datetime`-like value: calendar fields plus seconds within the day. -/
structure DateTime where
  year : Nat
  month : Nat
  day : Nat
  sec : Nat
deriving DecidableEq, Repr

/-- Gregorian leap-year rule (Python `calendar.isleap`). -/
def isLeap (y : Nat) : Bool :=
  y % 4 == 0 && (y % 100 != 0 || y % 400 == 0)

/-- Days in a month, given the leap status of the year. -/
def daysInMonthL (leap : Bool) (m : Nat) : Nat :=
  match m with
  | 2 => if leap then 29 else 28
  | 4 => 30
  | 6 => 30
  | 9 => 30
  | 11 => 30
  | _ => 31

/-- Days in month `m` of year `y`. -/
def daysInMonth (y m : Nat) : Nat := daysInMonthL (isLeap y) m

/-- Cumulative days in the months strictly before month `m` of a year. -/
def daysBeforeMonth (leap : Bool) (m : Nat) : Nat :=
  (match m with
   | 1 => 0 | 2 => 31 | 3 => 59 | 4 => 90 | 5 => 120 | 6 => 151
   | 7 => 181 | 8 => 212 | 9 => 243 | 10 => 273 | 11 => 304 | _ => 334)
  + (if leap ∧ 3 ≤ m then 1 else 0)

/-- Length of year `y` in days. -/
def daysInYear (y : Nat) : Nat := if isLeap y then 366 else 365

/-- Days in all years strictly before year `y`. -/
def daysBeforeYear : Nat → Nat
  | 0 => 0
  | y + 1 => daysBeforeYear y + daysInYear y

/-- Absolute day number of a date. -/
def dayNumber (c : DateTime) : Nat :=
  daysBeforeYear c.year + daysBeforeMonth (isLeap c.year) c.month + (c.day - 1)

/-- Absolute timestamp in seconds; on valid dates this is the chronological
order that Python `datetime` comparison implements. -/
def toSec (c : DateTime) : Nat := dayNumber c * 86400 + c.sec

/-- Chronological `<=` on datetimes (Python `datetime.__le__` on valid values). -/
def ble (a b : DateTime) : Bool := decide (toSec a ≤ toSec b)

/-- The invariant every Python `datetime` value satisfies. -/
def Valid (c : DateTime) : Prop :=
  1 ≤ c.month ∧ c.month ≤ 12 ∧ 1 ≤ c.day ∧ c.day ≤ daysInMonth c.year c.month ∧
    c.sec < 86400

instance (c : DateTime) : Decidable (Valid c) := by
  unfold Valid; infer_instance

/-- Successor day in the calendar. -/
def nextDay (c : DateTime) : DateTime :=
  if c.day < daysInMonth c.year c.month then { c with day := c.day + 1 }
  else if c.month < 12 then { c with month := c.month + 1, day := 1 }
  else { c with year := c.year + 1, month := 1, day := 1 }

/-- Add `n` days. -/
def addDays : Nat → DateTime → DateTime
  | 0, c => c
  | n + 1, c => addDays n (nextDay c)

/-- Add `k` seconds with day carry (Python `datetime + timedelta`). -/
def addSeconds (k : Nat) (c : DateTime) : DateTime :=
  addDays ((c.sec + k) / 86400) { c with sec := (c.sec + k) % 86400 }

/-- `current.replace(year=y, month=m)` under `try`, with the source's
`except ValueError` fallback that retries with `day=1`. -/
def replaceClamp (c : DateTime) (y m : Nat) : DateTime :=
  if c.day ≤ daysInMonth y m then { c with year := y, month := m }
  else { c with year := y, month := m, day := 1 }

/-- The cursor advance of `simulate_investment` (source lines 176-228), one
branch per recognized frequency code; an unrecognized code leaves the cursor
unchanged, as the Python `if/elif` chain does. -/
def stepDate (freq : String) (c : DateTime) : DateTime :=
  if freq = "halfhourly" then addSeconds 1800 c
  else if freq = "hourly" then addSeconds 3600 c
  else if freq = "3hourly" then addSeconds 10800 c
  else if freq = "6hourly" then addSeconds 21600 c
  else if freq = "12hourly" then addSeconds 43200 c
  else if freq = "daily" then addSeconds 86400 c
  else if freq = "3daily" then addSeconds 259200 c
  else if freq = "weekly" then addSeconds 604800 c
  else if freq = "monthly" then
    if c.month < 12 then replaceClamp c c.year (c.month + 1)
    else replaceClamp c (c.year + 1) 1
  else if freq = "quarterly" then
    if 12 < c.month + 3 then replaceClamp c (c.year + 1) (c.month + 3 - 12)
    else replaceClamp c c.year (c.month + 3)
  else if freq = "semiannually" then
    if 12 < c.month + 6 then replaceClamp c (c.year + 1) (c.month + 6 - 12)
    else replaceClamp c c.year (c.month + 6)
  else if freq = "yearly" then replaceClamp c (c.year + 1) c.month
  else c

/-- The twelve frequency codes the simulator recognizes. -/
def frequencyCodes : List String :=
  ["halfhourly", "hourly", "3hourly", "6hourly", "12hourly", "daily",
   "3daily", "weekly", "monthly", "quarterly", "semiannually", "yearly"]

/-- Spec-side reference: add `k` calendar months carrying the year, clamping an
invalid day-of-month to day 1 of the target month (spec section 4.3). -/
def specAddMonths (k : Nat) (c : DateTime) : DateTime :=
  let m0 := c.month - 1 + k
  let y := c.year + m0 / 12
  let m := m0 % 12 + 1
  if c.day ≤ daysInMonth y m then ⟨y, m, c.day, c.sec⟩ else ⟨y, m, 1, c.sec⟩

/-- Spec-side reference: add one year keeping month and day, clamping an
invalid day (Feb 29 to a non-leap year) to day 1 (spec section 4.3). -/
def specAddYear (c : DateTime) : DateTime :=
  if c.day ≤ daysInMonth (c.year + 1) c.month then { c with year := c.year + 1 }
  else { c with year := c.year + 1, day := 1 }

end StockDL

namespace StockDL

/-! ### Granularity detection (`detect_data_granularity`, source lines 51-79) -/

/-- The source's index loop `for i in range(1, sample_size)`: walk at most `n`
consecutive pairs, collect the delta in minutes when it is strictly positive.
Timestamps are in seconds, deltas are divided by 60 as in the source. -/
def collectDiffs : Nat → List ℚ → List ℚ
  | n + 1, a :: b :: rest =>
    if 0 < (b - a) / 60 then (b - a) / 60 :: collectDiffs n (b :: rest)
    else collectDiffs n (b :: rest)
  | _, _ => []

/-- `detect_data_granularity` over the series' timestamps (seconds). -/
def detect_data_granularity (ts : List ℚ) : String :=
  if ts.length < 2 then "unknown"
  else
    let sample := min 100 ts.length
    let diffs := collectDiffs (sample - 1) ts
    if diffs = [] then "unknown"
    else
      let avg := diffs.sum / (diffs.length : ℚ)
      if avg < 45 then "intraday_minute"
      else if avg < 90 then "intraday_hourly"
      else if avg < 18 * 60 then "intraday_half_day"
      else if avg < 36 * 60 then "daily"
      else "daily_plus"

/-- Reference definition of the detector, phrased as the spec does: positive
consecutive deltas (in minutes) over the first `min(100, length)` points,
classified by the mean against fixed thresholds. -/
def referenceGranularity (ts : List ℚ) : String :=
  if ts.length < 2 then "unknown"
  else
    let sample := min 100 ts.length
    let taken := ts.take sample
    let deltas := ((taken.zip taken.tail).map (fun p => (p.2 - p.1) / 60)).filter
      (fun d => decide (0 < d))
    if deltas = [] then "unknown"
    else
      let mean := deltas.sum / (deltas.length : ℚ)
      if mean < 45 then "intraday_minute"
      else if mean < 90 then "intraday_hourly"
      else if mean < 1080 then "intraday_half_day"
      else if mean < 2160 then "daily"
      else "daily_plus"

/-! ### Strategy catalog (`get_strategies_for_granularity`, source lines 81-133) -/

/-- A catalog entry: display label, interval in hours, frequency code. -/
structure Strategy where
  label : String
  hours : ℚ
  code : String
deriving DecidableEq, Repr

/-- `get_strategies_for_granularity`. -/
def get_strategies_for_granularity (granularity : String) : List Strategy :=
  if granularity = "intraday_minute" then
    [⟨"每半小時", 1/2, "halfhourly"⟩, ⟨"每小時", 1, "hourly"⟩,
     ⟨"每3小時", 3, "3hourly"⟩, ⟨"每6小時", 6, "6hourly"⟩,
     ⟨"每12小時", 12, "12hourly"⟩, ⟨"每日", 24, "daily"⟩,
     ⟨"每3日", 72, "3daily"⟩, ⟨"每週", 168, "weekly"⟩]
  else if granularity = "intraday_hourly" then
    [⟨"每小時", 1, "hourly"⟩, ⟨"每3小時", 3, "3hourly"⟩,
     ⟨"每6小時", 6, "6hourly"⟩, ⟨"每12小時", 12, "12hourly"⟩,
     ⟨"每日", 24, "daily"⟩, ⟨"每3日", 72, "3daily"⟩, ⟨"每週", 168, "weekly"⟩]
  else if granularity = "intraday_half_day" then
    [⟨"每12小時", 12, "12hourly"⟩, ⟨"每日", 24, "daily"⟩,
     ⟨"每3日", 72, "3daily"⟩, ⟨"每週", 168, "weekly"⟩, ⟨"每月", 720, "monthly"⟩]
  else if granularity = "daily" then
    [⟨"每日", 24, "daily"⟩, ⟨"每3日", 72, "3daily"⟩, ⟨"每週", 168, "weekly"⟩,
     ⟨"每月", 720, "monthly"⟩, ⟨"每季", 2160, "quarterly"⟩,
     ⟨"每半年", 4320, "semiannually"⟩]
  else
    [⟨"每週", 168, "weekly"⟩, ⟨"每月", 720, "monthly"⟩,
     ⟨"每季", 2160, "quarterly"⟩, ⟨"每半年", 4320, "semiannually"⟩,
     ⟨"每年", 8760, "yearly"⟩]

/-- The display-set bound of `run` (source lines 268-276): at most 8 entries,
otherwise entry `i` is taken at index `int(i * (length / 8))`.  The float
`length / 8` is exact for all representable list lengths (division by a power
of two), so the index is exactly `floor(i * length / 8)`. -/
def selectDisplaySet (l : List Strategy) : List Strategy :=
  if l.length ≤ 8 then l
  else (List.range 8).map (fun i => l.getD (i * l.length / 8) ⟨"", 0, ""⟩)

/-! ### Ranking (`run`, source lines 295-303) -/

/-- Python `max(results, key=lambda x: x[1]['return'])`: a linear scan keeping
the current best, replaced only on a strictly greater key. -/
def pyMaxByReturn : List (String × ℚ) → Option (String × ℚ)
  | [] => none
  | x :: xs => some (xs.foldl (fun b y => if b.2 < y.2 then y else b) x)

/-- Python `min(results, key=...)`: first occurrence of the minimum. -/
def pyMinByReturn : List (String × ℚ) → Option (String × ℚ)
  | [] => none
  | x :: xs => some (xs.foldl (fun b y => if y.2 < b.2 then y else b) x)

/-- The reported spread `best - worst` of the ranking conclusion. -/
def rankSpread (l : List (String × ℚ)) : Option ℚ :=
  match pyMaxByReturn l, pyMinByReturn l with
  | some b, some w => some (b.2 - w.2)
  | _, _ => none

/-! ### The simulator (`simulate_investment`, source lines 156-243) -/

/-- One row of the price series as the simulator reads it. -/
structure SimPoint where
  date : DateTime
  close : ℚ
deriving DecidableEq, Repr

/-- One recorded contribution (`investments.append(...)`, source lines 171-174). -/
structure Inv where
  shares : ℚ
  commission : ℚ
deriving DecidableEq, Repr

/-- The dictionary `simulate_investment` returns (source lines 235-243);
`ret` is the `'return'` key. -/
structure SimResult where
  count : Nat
  invested : ℚ
  commission : ℚ
  shares : ℚ
  value : ℚ
  ret : ℚ
  final_price : ℚ
deriving DecidableEq, Repr

/-- The ways a simulation run fails: the `.iloc[-1]` lookup on an empty frame
(no point at or before the end date) and the unguarded division by a zero
`total_invested`. -/
inductive SimError
  | noFinalPrice
  | divByZero
deriving DecidableEq, Repr

/-- The contribution `while` loop (source lines 162-228).  `fuel` bounds the
number of iterations; every recognized frequency strictly advances the cursor,
so a large enough fuel makes the bound inert (see the termination theorem). -/
def simLoop (cr : ℚ) (data : List SimPoint) (endD : DateTime) (amount : ℚ)
    (freq : String) : Nat → DateTime → List Inv
  | 0, _ => []
  | fuel + 1, current =>
    if ble current endD then
      match (data.filter (fun p => ble current p.date)).head? with
      | none => []
      | some p =>
        if ble p.date endD then
          ⟨amount * (1 - cr) / p.close, amount * cr⟩ ::
            simLoop cr data endD amount freq fuel (stepDate freq current)
        else []
    else []

/-- `simulate_investment`.  The final-price lookup and the return-percent
division are the two fallible operations of the source. -/
def simulate (cr : ℚ) (data : List SimPoint) (start endD : DateTime)
    (amount : ℚ) (freq : String) : Except SimError SimResult :=
  let invs := simLoop cr data endD amount freq (toSec endD - toSec start + 1) start
  let totalInvested : ℚ := (invs.length : ℚ) * amount
  let totalShares : ℚ := (invs.map Inv.shares).sum
  match (data.filter (fun p => ble p.date endD)).getLast? with
  | none => Except.error SimError.noFinalPrice
  | some p =>
    let finalValue := totalShares * p.close
    if totalInvested = 0 then Except.error SimError.divByZero
    else Except.ok
      { count := invs.length
        invested := totalInvested
        commission := (invs.map Inv.commission).sum
        shares := totalShares
        value := finalValue
        ret := (finalValue - totalInvested) / totalInvested * 100
        final_price := p.close }

deriving instance DecidableEq for Except

/-- A series of `n` points one day apart at constant close price `p`. -/
def mkDailySeries (n : Nat) (p : ℚ) (d0 : DateTime) : List SimPoint :=
  (List.range n).map (fun i => ⟨addDays i d0, p⟩)

/-! ### Calendar lemmas -/

lemma daysInMonthL_pos (leap : Bool) (m : Nat) : 1 ≤ daysInMonthL leap m := by
  unfold daysInMonthL
  split
  · split <;> omega
  all_goals omega

lemma daysBeforeMonth_succ (leap : Bool) (m : Nat) (h1 : 1 ≤ m) (h2 : m ≤ 11) :
    daysBeforeMonth leap (m + 1) = daysBeforeMonth leap m + daysInMonthL leap m := by
  interval_cases m <;> cases leap <;> decide

lemma dbm_add_dim_le (l : Bool) (m m' : Nat) (h1 : 1 ≤ m) (h2 : m < m')
    (h3 : m' ≤ 12) :
    daysBeforeMonth l m + daysInMonthL l m ≤ daysBeforeMonth l m' := by
  have h4 : m ≤ 11 := by omega
  interval_cases m <;> interval_cases m' <;> cases l <;> decide

lemma dbm_add_dim_le_year (l : Bool) (m : Nat) (h1 : 1 ≤ m) (h2 : m ≤ 12) :
    daysBeforeMonth l m + daysInMonthL l m ≤ if l then 366 else 365 := by
  interval_cases m <;> cases l <;> decide

lemma daysBeforeYear_succ (y : Nat) :
    daysBeforeYear (y + 1) = daysBeforeYear y + daysInYear y := rfl

lemma toSec_nextDay (c : DateTime) (h : Valid c) :
    Valid (nextDay c) ∧ toSec (nextDay c) = toSec c + 86400 := by
  obtain ⟨y, m, d, s⟩ := c
  simp only [Valid, daysInMonth] at h
  obtain ⟨hm1, hm2, hd1, hd2, hs⟩ := h
  by_cases hlt : d < daysInMonthL (isLeap y) m
  · have he : nextDay ⟨y, m, d, s⟩ = ⟨y, m, d + 1, s⟩ := by
      simp [nextDay, daysInMonth, hlt]
    rw [he]
    constructor
    · simp only [Valid, daysInMonth]
      omega
    · simp only [toSec, dayNumber]
      omega
  · by_cases hm : m < 12
    · have he : nextDay ⟨y, m, d, s⟩ = ⟨y, m + 1, 1, s⟩ := by
        simp [nextDay, daysInMonth, hlt, hm]
      rw [he]
      have hsucc := daysBeforeMonth_succ (isLeap y) m hm1 (by omega)
      have hpos := daysInMonthL_pos (isLeap y) (m + 1)
      constructor
      · simp only [Valid, daysInMonth]
        omega
      · simp only [toSec, dayNumber]
        omega
    · have hm12 : m = 12 := by omega
      subst hm12
      have he : nextDay ⟨y, 12, d, s⟩ = ⟨y + 1, 1, 1, s⟩ := by
        simp [nextDay, daysInMonth, hlt]
      rw [he]
      have hpos := daysInMonthL_pos (isLeap (y + 1)) 1
      constructor
      · simp only [Valid, daysInMonth]
        omega
      · cases hl : isLeap y <;>
          simp [toSec, dayNumber, daysBeforeYear_succ, daysInYear,
            daysBeforeMonth, daysInMonthL, hl] at hd2 hlt ⊢ <;> omega

lemma toSec_addDays (n : Nat) : ∀ c, Valid c →
    Valid (addDays n c) ∧ toSec (addDays n c) = toSec c + n * 86400 := by
  induction n with
  | zero => intro c h; simpa [addDays] using h
  | succ n ih =>
    intro c h
    have h1 := toSec_nextDay c h
    have h2 := ih (nextDay c) h1.1
    refine ⟨h2.1, ?_⟩
    show toSec (addDays n (nextDay c)) = _
    rw [h2.2, h1.2]
    ring

lemma toSec_addSeconds (k : Nat) (c : DateTime) (h : Valid c) :
    Valid (addSeconds k c) ∧ toSec (addSeconds k c) = toSec c + k := by
  obtain ⟨hm1, hm2, hd1, hd2, hs⟩ := h
  have hv : Valid { c with sec := (c.sec + k) % 86400 } :=
    ⟨hm1, hm2, hd1, hd2, Nat.mod_lt _ (by omega)⟩
  have hd := toSec_addDays ((c.sec + k) / 86400) _ hv
  refine ⟨hd.1, ?_⟩
  rw [addSeconds, hd.2]
  simp only [toSec, dayNumber]
  omega

/-- `replaceClamp` is valid and strictly later whenever the target month starts
no earlier than the end of the current month. -/
lemma replaceClamp_gt (c : DateTime) (y' m' : Nat) (h : Valid c)
    (hm'1 : 1 ≤ m') (hm'2 : m' ≤ 12)
    (hlt : daysBeforeYear c.year + daysBeforeMonth (isLeap c.year) c.month +
        daysInMonth c.year c.month ≤
      daysBeforeYear y' + daysBeforeMonth (isLeap y') m') :
    Valid (replaceClamp c y' m') ∧ toSec c < toSec (replaceClamp c y' m') := by
  obtain ⟨hm1, hm2, hd1, hd2, hs⟩ := h
  unfold replaceClamp
  split_ifs with hday
  · refine ⟨⟨hm'1, hm'2, hd1, hday, hs⟩, ?_⟩
    simp only [toSec, dayNumber]
    omega
  · refine ⟨⟨hm'1, hm'2, le_refl 1, daysInMonthL_pos _ _, hs⟩, ?_⟩
    simp only [toSec, dayNumber]
    omega

lemma stepDate_monthly (c : DateTime) : stepDate "monthly" c =
    if c.month < 12 then replaceClamp c c.year (c.month + 1)
    else replaceClamp c (c.year + 1) 1 := by
  simp [stepDate]

lemma stepDate_quarterly (c : DateTime) : stepDate "quarterly" c =
    if 12 < c.month + 3 then replaceClamp c (c.year + 1) (c.month + 3 - 12)
    else replaceClamp c c.year (c.month + 3) := by
  simp [stepDate]

lemma stepDate_semiannually (c : DateTime) : stepDate "semiannually" c =
    if 12 < c.month + 6 then replaceClamp c (c.year + 1) (c.month + 6 - 12)
    else replaceClamp c c.year (c.month + 6) := by
  simp [stepDate]

lemma stepDate_yearly (c : DateTime) :
    stepDate "yearly" c = replaceClamp c (c.year + 1) c.month := by
  simp [stepDate]

lemma stepDate_halfhourly (c : DateTime) :
    stepDate "halfhourly" c = addSeconds 1800 c := by
  simp [stepDate]

lemma stepDate_hourly (c : DateTime) :
    stepDate "hourly" c = addSeconds 3600 c := by
  simp [stepDate]

lemma stepDate_3hourly (c : DateTime) :
    stepDate "3hourly" c = addSeconds 10800 c := by
  simp [stepDate]

lemma stepDate_6hourly (c : DateTime) :
    stepDate "6hourly" c = addSeconds 21600 c := by
  simp [stepDate]

lemma stepDate_12hourly (c : DateTime) :
    stepDate "12hourly" c = addSeconds 43200 c := by
  simp [stepDate]

lemma stepDate_daily (c : DateTime) :
    stepDate "daily" c = addSeconds 86400 c := by
  simp [stepDate]

lemma stepDate_3daily (c : DateTime) :
    stepDate "3daily" c = addSeconds 259200 c := by
  simp [stepDate]

lemma stepDate_weekly (c : DateTime) :
    stepDate "weekly" c = addSeconds 604800 c := by
  simp [stepDate]

lemma step_mono_monthly (c : DateTime) (h : Valid c) :
    Valid (stepDate "monthly" c) ∧ toSec c < toSec (stepDate "monthly" c) := by
  obtain ⟨hm1, hm2, -, -, -⟩ := id h
  rw [stepDate_monthly]
  by_cases hm : c.month < 12
  · rw [if_pos hm]
    refine replaceClamp_gt c _ _ h (by omega) (by omega) ?_
    have hsucc := daysBeforeMonth_succ (isLeap c.year) c.month hm1 (by omega)
    simp only [daysInMonth]
    omega
  · rw [if_neg hm]
    refine replaceClamp_gt c _ _ h (le_refl 1) (by omega) ?_
    have hm12 : c.month = 12 := by omega
    have h1 := dbm_add_dim_le_year (isLeap c.year) c.month hm1 hm2
    rw [hm12, daysBeforeYear_succ]
    cases hl : isLeap c.year <;>
      simp [daysInMonth, daysInYear, daysBeforeMonth, hl, hm12] at h1 ⊢ <;> omega

lemma step_mono_quarterly (c : DateTime) (h : Valid c) :
    Valid (stepDate "quarterly" c) ∧ toSec c < toSec (stepDate "quarterly" c) := by
  obtain ⟨hm1, hm2, -, -, -⟩ := id h
  rw [stepDate_quarterly]
  by_cases hq : 12 < c.month + 3
  · rw [if_pos hq]
    refine replaceClamp_gt c _ _ h (by omega) (by omega) ?_
    have h1 := dbm_add_dim_le_year (isLeap c.year) c.month hm1 hm2
    rw [daysBeforeYear_succ]
    have h2 : 0 ≤ daysBeforeMonth (isLeap (c.year + 1)) (c.month + 3 - 12) :=
      Nat.zero_le _
    cases hl : isLeap c.year <;>
      simp [daysInMonth, daysInYear, hl] at h1 ⊢ <;> omega
  · rw [if_neg hq]
    refine replaceClamp_gt c _ _ h (by omega) (by omega) ?_
    have h1 := dbm_add_dim_le (isLeap c.year) c.month (c.month + 3) hm1
      (by omega) (by omega)
    simp only [daysInMonth]
    omega

lemma step_mono_semiannually (c : DateTime) (h : Valid c) :
    Valid (stepDate "semiannually" c) ∧
      toSec c < toSec (stepDate "semiannually" c) := by
  obtain ⟨hm1, hm2, -, -, -⟩ := id h
  rw [stepDate_semiannually]
  by_cases hq : 12 < c.month + 6
  · rw [if_pos hq]
    refine replaceClamp_gt c _ _ h (by omega) (by omega) ?_
    have h1 := dbm_add_dim_le_year (isLeap c.year) c.month hm1 hm2
    rw [daysBeforeYear_succ]
    cases hl : isLeap c.year <;>
      simp [daysInMonth, daysInYear, hl] at h1 ⊢ <;> omega
  · rw [if_neg hq]
    refine replaceClamp_gt c _ _ h (by omega) (by omega) ?_
    have h1 := dbm_add_dim_le (isLeap c.year) c.month (c.month + 6) hm1
      (by omega) (by omega)
    simp only [daysInMonth]
    omega

lemma step_mono_yearly (c : DateTime) (h : Valid c) :
    Valid (stepDate "yearly" c) ∧ toSec c < toSec (stepDate "yearly" c) := by
  obtain ⟨hm1, hm2, -, -, -⟩ := id h
  rw [stepDate_yearly]
  refine replaceClamp_gt c _ _ h hm1 hm2 ?_
  have h1 := dbm_add_dim_le_year (isLeap c.year) c.month hm1 hm2
  rw [daysBeforeYear_succ]
  have h2 : 0 ≤ daysBeforeMonth (isLeap (c.year + 1)) c.month := Nat.zero_le _
  cases hl : isLeap c.year <;>
    simp [daysInMonth, daysInYear, hl] at h1 ⊢ <;> omega

/-- Every recognized frequency code strictly advances a valid cursor. -/
lemma step_mono (freq : String) (hf : freq ∈ frequencyCodes) (c : DateTime)
    (h : Valid c) :
    Valid (stepDate freq c) ∧ toSec c < toSec (stepDate freq c) := by
  simp only [frequencyCodes, List.mem_cons, List.not_mem_nil, or_false] at hf
  rcases hf with rfl | rfl | rfl | rfl | rfl | rfl | rfl | rfl | rfl | rfl | rfl | rfl
  · rw [stepDate_halfhourly]
    have hx := toSec_addSeconds 1800 c h
    exact ⟨hx.1, by omega⟩
  · rw [stepDate_hourly]
    have hx := toSec_addSeconds 3600 c h
    exact ⟨hx.1, by omega⟩
  · rw [stepDate_3hourly]
    have hx := toSec_addSeconds 10800 c h
    exact ⟨hx.1, by omega⟩
  · rw [stepDate_6hourly]
    have hx := toSec_addSeconds 21600 c h
    exact ⟨hx.1, by omega⟩
  · rw [stepDate_12hourly]
    have hx := toSec_addSeconds 43200 c h
    exact ⟨hx.1, by omega⟩
  · rw [stepDate_daily]
    have hx := toSec_addSeconds 86400 c h
    exact ⟨hx.1, by omega⟩
  · rw [stepDate_3daily]
    have hx := toSec_addSeconds 259200 c h
    exact ⟨hx.1, by omega⟩
  · rw [stepDate_weekly]
    have hx := toSec_addSeconds 604800 c h
    exact ⟨hx.1, by omega⟩
  · exact step_mono_monthly c h
  · exact step_mono_quarterly c h
  · exact step_mono_semiannually c h
  · exact step_mono_yearly c h

lemma step_iterate (freq : String) (hf : freq ∈ frequencyCodes) (c : DateTime)
    (h : Valid c) (n : Nat) :
    Valid ((stepDate freq)^[n] c) ∧ toSec c + n ≤ toSec ((stepDate freq)^[n] c) := by
  induction n with
  | zero => simpa using h
  | succ n ih =>
    have hs := step_mono freq hf _ ih.1
    rw [Function.iterate_succ_apply']
    exact ⟨hs.1, by omega⟩

lemma stepDate_monthly_spec (c : DateTime) (h : Valid c) :
    stepDate "monthly" c = specAddMonths 1 c := by
  obtain ⟨y, m, d, s⟩ := c
  simp only [Valid, daysInMonth] at h
  obtain ⟨hm1, hm2, -, -, -⟩ := h
  rw [stepDate_monthly]
  interval_cases m <;> simp [specAddMonths, replaceClamp, daysInMonth]

lemma stepDate_quarterly_spec (c : DateTime) (h : Valid c) :
    stepDate "quarterly" c = specAddMonths 3 c := by
  obtain ⟨y, m, d, s⟩ := c
  simp only [Valid, daysInMonth] at h
  obtain ⟨hm1, hm2, -, -, -⟩ := h
  rw [stepDate_quarterly]
  interval_cases m <;> simp [specAddMonths, replaceClamp, daysInMonth] <;>
    split_ifs with hc <;> simp [hc]

lemma stepDate_semiannually_spec (c : DateTime) (h : Valid c) :
    stepDate "semiannually" c = specAddMonths 6 c := by
  obtain ⟨y, m, d, s⟩ := c
  simp only [Valid, daysInMonth] at h
  obtain ⟨hm1, hm2, -, -, -⟩ := h
  rw [stepDate_semiannually]
  interval_cases m <;> simp [specAddMonths, replaceClamp, daysInMonth] <;>
    split_ifs with hc <;> simp [hc]

lemma stepDate_yearly_spec (c : DateTime) :
    stepDate "yearly" c = specAddYear c := by
  rw [stepDate_yearly]
  simp [specAddYear, replaceClamp]

/-! ### Loop lemmas for the simulator -/

lemma mkDailySeries_succ (n : Nat) (p : ℚ) (d0 : DateTime) :
    mkDailySeries (n + 1) p d0 = ⟨d0, p⟩ :: mkDailySeries n p (nextDay d0) := by
  unfold mkDailySeries
  rw [List.range_succ_eq_map, List.map_cons, List.map_map]
  rfl

lemma stepDaily_eq_nextDay (c : DateTime) (h : Valid c) :
    stepDate "daily" c = nextDay c := by
  rw [stepDate_daily]
  obtain ⟨-, -, -, -, hs⟩ := id h
  have h1 : (c.sec + 86400) / 86400 = 1 := by omega
  have h2 : (c.sec + 86400) % 86400 = c.sec := by omega
  show addDays ((c.sec + 86400) / 86400) { c with sec := (c.sec + 86400) % 86400 }
    = nextDay c
  rw [h1, h2]
  rfl

lemma simLoop_past (cr amount : ℚ) (data : List SimPoint) (endD : DateTime)
    (freq : String) (fuel : Nat) (current : DateTime)
    (h : ble current endD = false) :
    simLoop cr data endD amount freq fuel current = [] := by
  cases fuel <;> simp [simLoop, h]

lemma simLoop_drop (cr amount : ℚ) (q : SimPoint) (data : List SimPoint)
    (endD : DateTime) (freq : String) (hf : freq ∈ frequencyCodes) :
    ∀ fuel current, Valid current → toSec q.date < toSec current →
    simLoop cr (q :: data) endD amount freq fuel current =
      simLoop cr data endD amount freq fuel current := by
  intro fuel
  induction fuel with
  | zero => intro current h hlt; rfl
  | succ fuel ih =>
    intro current h hlt
    have hq : ble current q.date = false := by
      simp only [ble, decide_eq_false_iff_not]
      omega
    simp only [simLoop, List.filter_cons, hq, Bool.false_eq_true, if_false]
    by_cases hend : ble current endD = true
    · simp only [hend, if_true]
      cases hh : (List.filter (fun p => ble current p.date) data).head? with
      | none => rfl
      | some pt =>
        by_cases hpe : ble pt.date endD = true
        · simp only [hpe, if_true]
          have hs := step_mono freq hf current h
          rw [ih (stepDate freq current) hs.1 (by omega)]
        · simp [hpe]
    · simp [hend]

lemma valid_addDays (n : Nat) (c : DateTime) (h : Valid c) :
    Valid (addDays n c) := (toSec_addDays n c h).1

lemma ble_toSec (a b : DateTime) : ble a b = true ↔ toSec a ≤ toSec b := by
  simp [ble]

lemma simLoop_daily (cr amount p : ℚ) :
    ∀ n d0 fuel, Valid d0 → 1 ≤ n → n ≤ fuel →
    simLoop cr (mkDailySeries n p d0) (addDays (n - 1) d0) amount "daily" fuel d0
      = List.replicate n ⟨amount * (1 - cr) / p, amount * cr⟩ := by
  intro n
  induction n with
  | zero => intro d0 fuel h h1 h2; omega
  | succ n ih =>
    intro d0 fuel h h1 hfuel
    obtain ⟨fuel, rfl⟩ : ∃ f, fuel = f + 1 := ⟨fuel - 1, by omega⟩
    have hvn := toSec_nextDay d0 h
    have had := toSec_addDays n d0 h
    have hend : ble d0 (addDays n d0) = true := by
      rw [ble_toSec]
      omega
    have hbd : ble d0 d0 = true := by
      rw [ble_toSec]
    have hsd := stepDaily_eq_nextDay d0 h
    rw [mkDailySeries_succ]
    show (if ble d0 (addDays (n + 1 - 1) d0) = true then _ else _) = _
    simp only [Nat.add_sub_cancel] at *
    rw [if_pos hend]
    show (match (List.filter (fun q => ble d0 q.date)
        (⟨d0, p⟩ :: mkDailySeries n p (nextDay d0))).head? with
      | none => []
      | some q =>
        if ble q.date (addDays n d0) = true then
          (⟨amount * (1 - cr) / q.close, amount * cr⟩ : Inv) ::
            simLoop cr (⟨d0, p⟩ :: mkDailySeries n p (nextDay d0)) (addDays n d0)
              amount "daily" fuel (stepDate "daily" d0)
        else []) = _
    rw [List.filter_cons, if_pos (by exact hbd)]
    show (if ble d0 (addDays n d0) = true then _ else _) = _
    rw [if_pos hend, hsd]
    rw [simLoop_drop cr amount ⟨d0, p⟩ _ _ "daily" (by decide) fuel (nextDay d0)
      hvn.1 (by simp only; omega)]
    rcases n with _ | m
    · rw [simLoop_past cr amount _ _ _ fuel (nextDay d0) (by
        simp only [ble, addDays, decide_eq_false_iff_not]
        omega)]
      rfl
    · have ihx := ih (nextDay d0) fuel hvn.1 (by omega) (by omega)
      simp only [Nat.add_sub_cancel] at ihx
      rw [show addDays (m + 1) d0 = addDays m (nextDay d0) from rfl, ihx]
      rfl

lemma mkDailySeries_filter_le_end (n : Nat) (p : ℚ) (d0 : DateTime)
    (h : Valid d0) :
    (mkDailySeries n p d0).filter (fun q => ble q.date (addDays (n - 1) d0))
      = mkDailySeries n p d0 := by
  apply List.filter_eq_self.mpr
  intro q hq
  unfold mkDailySeries at hq
  simp only [List.mem_map, List.mem_range] at hq
  obtain ⟨i, hi, rfl⟩ := hq
  have h1 := toSec_addDays i d0 h
  have h2 := toSec_addDays (n - 1) d0 h
  simp only [ble, decide_eq_true_eq]
  omega

lemma mkDailySeries_getLast (n : Nat) (p : ℚ) (d0 : DateTime) (h : 1 ≤ n) :
    (mkDailySeries n p d0).getLast? = some ⟨addDays (n - 1) d0, p⟩ := by
  obtain ⟨m, rfl⟩ : ∃ m, n = m + 1 := ⟨n - 1, by omega⟩
  unfold mkDailySeries
  rw [List.range_succ, List.map_append]
  simp [List.getLast?_concat]

lemma simulate_daily_eq (P A cr : ℚ) (N : Nat) (d0 : DateTime)
    (hv : Valid d0) (hN : 1 ≤ N) (hP : 0 < P) (hA : 0 < A) :
    simulate cr (mkDailySeries N P d0) d0 (addDays (N - 1) d0) A "daily" =
      Except.ok ⟨N, (N : ℚ) * A, (N : ℚ) * A * cr, (N : ℚ) * A * (1 - cr) / P,
        (N : ℚ) * A * (1 - cr), -cr * 100, P⟩ := by
  have had := toSec_addDays (N - 1) d0 hv
  have hfl : N ≤ toSec (addDays (N - 1) d0) - toSec d0 + 1 := by omega
  simp only [simulate]
  rw [simLoop_daily cr A P N d0 _ hv hN hfl]
  rw [mkDailySeries_filter_le_end N P d0 hv, mkDailySeries_getLast N P d0 hN]
  dsimp only
  have hNA : ((List.replicate N
      (⟨A * (1 - cr) / P, A * cr⟩ : Inv)).length : ℚ) * A ≠ 0 := by
    rw [List.length_replicate]
    have h1 : (0 : ℚ) < (N : ℚ) := by exact_mod_cast hN
    positivity
  rw [if_neg hNA]
  simp only [List.length_replicate, List.map_replicate, List.sum_replicate,
    nsmul_eq_mul, Except.ok.injEq, SimResult.mk.injEq]
  have h1 : (0 : ℚ) < (N : ℚ) := by exact_mod_cast hN
  have h2 : (N : ℚ) * A ≠ 0 := by positivity
  have hP' : P ≠ 0 := ne_of_gt hP
  refine ⟨trivial, trivial, by ring, by ring, ?_, ?_, trivial⟩
  · field_simp
    ring
  · field_simp
    ring

lemma simulate_noFinalPrice (cr : ℚ) (data : List SimPoint) (start endD : DateTime)
    (amount : ℚ) (freq : String)
    (h : ∀ q ∈ data, ble q.date endD = false) :
    simulate cr data start endD amount freq = Except.error SimError.noFinalPrice := by
  simp only [simulate]
  have hf : data.filter (fun q => ble q.date endD) = [] := by
    rw [List.filter_eq_nil_iff]
    intro a ha
    simp [h a ha]
  rw [hf]
  rfl

/-! ### Granularity detector: loop form equals the zip form -/

lemma collectDiffs_eq (n : Nat) : ∀ ts : List ℚ,
    collectDiffs n ts = (((ts.take (n + 1)).zip (ts.take (n + 1)).tail).map
      (fun q => (q.2 - q.1) / 60)).filter (fun d => decide (0 < d)) := by
  induction n with
  | zero =>
    intro ts
    cases ts with
    | nil => rfl
    | cons a t => cases t with
      | nil => rfl
      | cons b r => rfl
  | succ n ih =>
    intro ts
    cases ts with
    | nil => rfl
    | cons a t =>
      cases t with
      | nil => rfl
      | cons b r =>
        have ihx := ih (b :: r)
        simp only [List.take_succ_cons, List.tail_cons] at ihx
        simp only [collectDiffs, List.take_succ_cons, List.tail_cons,
          List.zip_cons_cons, List.map_cons, List.filter_cons, ihx]
        by_cases hd : 0 < (b - a) / 60
        · simp [hd]
        · simp [hd]

lemma detect_eq_reference (ts : List ℚ) :
    detect_data_granularity ts = referenceGranularity ts := by
  unfold detect_data_granularity referenceGranularity
  by_cases h2 : ts.length < 2
  · simp [h2]
  · have hs : min 100 ts.length - 1 + 1 = min 100 ts.length := by omega
    rw [if_neg h2, if_neg h2]
    simp only [collectDiffs_eq, hs]
    norm_num

/-! ### Ranking scan: first occurrence of the extreme value -/

lemma foldl_max_split (xs : List (String × ℚ)) : ∀ b : String × ℚ,
    (xs.foldl (fun v y => if v.2 < y.2 then y else v) b = b ∧ ∀ y ∈ xs, y.2 ≤ b.2) ∨
    (∃ r l₁ l₂, xs.foldl (fun v y => if v.2 < y.2 then y else v) b = r ∧
      xs = l₁ ++ r :: l₂ ∧ b.2 < r.2 ∧ (∀ y ∈ l₁, y.2 < r.2) ∧
      ∀ y ∈ l₂, y.2 ≤ r.2) := by
  induction xs with
  | nil => intro b; exact Or.inl ⟨rfl, by simp⟩
  | cons x xs ih =>
    intro b
    by_cases hx : b.2 < x.2
    · rw [List.foldl_cons, if_pos hx]
      rcases ih x with ⟨heq, hall⟩ | ⟨r, l₁, l₂, heq, hsplit, hlt, hpre, hsuf⟩
      · refine Or.inr ⟨x, [], xs, heq, rfl, hx, by simp, hall⟩
      · refine Or.inr ⟨r, x :: l₁, l₂, heq, by rw [hsplit, List.cons_append],
          lt_trans hx hlt, ?_, hsuf⟩
        intro y hy
        rcases List.mem_cons.mp hy with rfl | hy'
        · exact hlt
        · exact hpre y hy'
    · rw [List.foldl_cons, if_neg hx]
      rcases ih b with ⟨heq, hall⟩ | ⟨r, l₁, l₂, heq, hsplit, hlt, hpre, hsuf⟩
      · refine Or.inl ⟨heq, ?_⟩
        intro y hy
        rcases List.mem_cons.mp hy with rfl | hy'
        · exact le_of_not_lt hx
        · exact hall y hy'
      · refine Or.inr ⟨r, x :: l₁, l₂, heq, by rw [hsplit, List.cons_append],
          hlt, ?_, hsuf⟩
        intro y hy
        rcases List.mem_cons.mp hy with rfl | hy'
        · exact lt_of_le_of_lt (le_of_not_lt hx) hlt
        · exact hpre y hy'

lemma foldl_min_split (xs : List (String × ℚ)) : ∀ b : String × ℚ,
    (xs.foldl (fun v y => if y.2 < v.2 then y else v) b = b ∧ ∀ y ∈ xs, b.2 ≤ y.2) ∨
    (∃ r l₁ l₂, xs.foldl (fun v y => if y.2 < v.2 then y else v) b = r ∧
      xs = l₁ ++ r :: l₂ ∧ r.2 < b.2 ∧ (∀ y ∈ l₁, r.2 < y.2) ∧
      ∀ y ∈ l₂, r.2 ≤ y.2) := by
  induction xs with
  | nil => intro b; exact Or.inl ⟨rfl, by simp⟩
  | cons x xs ih =>
    intro b
    by_cases hx : x.2 < b.2
    · rw [List.foldl_cons, if_pos hx]
      rcases ih x with ⟨heq, hall⟩ | ⟨r, l₁, l₂, heq, hsplit, hlt, hpre, hsuf⟩
      · refine Or.inr ⟨x, [], xs, heq, rfl, hx, by simp, hall⟩
      · refine Or.inr ⟨r, x :: l₁, l₂, heq, by rw [hsplit, List.cons_append],
          lt_trans hlt hx, ?_, hsuf⟩
        intro y hy
        rcases List.mem_cons.mp hy with rfl | hy'
        · exact hlt
        · exact hpre y hy'
    · rw [List.foldl_cons, if_neg hx]
      rcases ih b with ⟨heq, hall⟩ | ⟨r, l₁, l₂, heq, hsplit, hlt, hpre, hsuf⟩
      · refine Or.inl ⟨heq, ?_⟩
        intro y hy
        rcases List.mem_cons.mp hy with rfl | hy'
        · exact le_of_not_lt hx
        · exact hall y hy'
      · refine Or.inr ⟨r, x :: l₁, l₂, heq, by rw [hsplit, List.cons_append],
          hlt, ?_, hsuf⟩
        intro y hy
        rcases List.mem_cons.mp hy with rfl | hy'
        · exact lt_of_lt_of_le hlt (le_of_not_lt hx)
        · exact hpre y hy'

/-! ### Claim theorems -/

/-- C1: for every valid date, the simulator's calendar-stepped cursor advance
matches the specified behavior: monthly, quarterly and semiannually add 1, 3
or 6 calendar months with a year carry and clamp an invalid day-of-month to
day 1 of the target month; yearly adds one year keeping month and day with the
same clamp; and one monthly step from day 31 lands on day 1 of the next month
whenever that month has fewer than 31 days. -/
theorem calendar_step_matches_spec (c : DateTime) (h : Valid c) :
    stepDate "monthly" c = specAddMonths 1 c ∧
    stepDate "quarterly" c = specAddMonths 3 c ∧
    stepDate "semiannually" c = specAddMonths 6 c ∧
    stepDate "yearly" c = specAddYear c ∧
    (c.day = 31 →
      daysInMonth (specAddMonths 1 c).year (specAddMonths 1 c).month < 31 →
      (stepDate "monthly" c).day = 1) := by
  refine ⟨stepDate_monthly_spec c h, stepDate_quarterly_spec c h,
    stepDate_semiannually_spec c h, stepDate_yearly_spec c, ?_⟩
  intro hd hlt
  rw [stepDate_monthly_spec c h]
  simp only [specAddMonths, apply_ite DateTime.year, apply_ite DateTime.month,
    apply_ite DateTime.day, ite_self] at hlt ⊢
  rw [if_neg (by omega)]

/-- Witness for C1 at January 31 of the leap year 4: the monthly step clamps
into February 1. -/
theorem calendar_step_matches_spec_witness :
    Valid (⟨4, 1, 31, 0⟩ : DateTime) ∧
    (stepDate "monthly" ⟨4, 1, 31, 0⟩ = specAddMonths 1 ⟨4, 1, 31, 0⟩ ∧
     stepDate "quarterly" ⟨4, 1, 31, 0⟩ = specAddMonths 3 ⟨4, 1, 31, 0⟩ ∧
     stepDate "semiannually" ⟨4, 1, 31, 0⟩ = specAddMonths 6 ⟨4, 1, 31, 0⟩ ∧
     stepDate "yearly" ⟨4, 1, 31, 0⟩ = specAddYear ⟨4, 1, 31, 0⟩ ∧
     ((⟨4, 1, 31, 0⟩ : DateTime).day = 31 →
       daysInMonth (specAddMonths 1 ⟨4, 1, 31, 0⟩).year
         (specAddMonths 1 ⟨4, 1, 31, 0⟩).month < 31 →
       (stepDate "monthly" ⟨4, 1, 31, 0⟩).day = 1)) :=
  ⟨by decide, calendar_step_matches_spec ⟨4, 1, 31, 0⟩ (by decide)⟩

/-- C2: `detect_data_granularity` equals the reference definition built from
the spec's words: under 2 points gives unknown, positive consecutive deltas in
minutes over the first min(100, length) points, unknown when none, otherwise
the mean classified at 45 / 90 / 1080 / 2160 minutes. -/
theorem granularity_matches_reference (ts : List ℚ) :
    detect_data_granularity ts = referenceGranularity ts :=
  detect_eq_reference ts

/-- C3: daily contributions at constant price P over N daily points spanning
the range give exactly N contributions, N*A*(1-c)/P shares, final value
N*A*(1-c) and return percent -c*100. -/
theorem daily_constant_price_simulation (P A cr : ℚ) (N : Nat) (d0 : DateTime)
    (hv : Valid d0) (hN : 1 ≤ N) (hP : 0 < P) (hA : 0 < A) :
    simulate cr (mkDailySeries N P d0) d0 (addDays (N - 1) d0) A "daily" =
      Except.ok ⟨N, (N : ℚ) * A, (N : ℚ) * A * cr, (N : ℚ) * A * (1 - cr) / P,
        (N : ℚ) * A * (1 - cr), -cr * 100, P⟩ :=
  simulate_daily_eq P A cr N d0 hv hN hP hA

/-- Witness for C3: two daily points at price 10, amount 200, commission 1/1000. -/
theorem daily_constant_price_simulation_witness :
    Valid (⟨3, 1, 1, 0⟩ : DateTime) ∧ 1 ≤ 2 ∧ (0 : ℚ) < 10 ∧ (0 : ℚ) < 200 ∧
    simulate (1/1000) (mkDailySeries 2 10 ⟨3, 1, 1, 0⟩) ⟨3, 1, 1, 0⟩
        (addDays (2 - 1) ⟨3, 1, 1, 0⟩) 200 "daily" =
      Except.ok ⟨2, ((2 : Nat) : ℚ) * 200, ((2 : Nat) : ℚ) * 200 * (1/1000),
        ((2 : Nat) : ℚ) * 200 * (1 - 1/1000) / 10,
        ((2 : Nat) : ℚ) * 200 * (1 - 1/1000), -(1/1000) * 100, 10⟩ :=
  ⟨by decide, by norm_num, by norm_num, by norm_num,
    daily_constant_price_simulation 10 200 (1/1000) 2 ⟨3, 1, 1, 0⟩ (by decide)
      (by norm_num) (by norm_num) (by norm_num)⟩

/-- C4: at a legal out-of-range date range producing zero contributions the
source divides by the zero `total_invested` instead of flagging the result:
the simulation fails with a division-by-zero, refuting the claimed explicit
no-contribution flag. -/
theorem zero_contributions_divide_by_zero :
    simulate (1/1000) [⟨⟨3, 1, 1, 0⟩, 100⟩] ⟨3, 2, 1, 0⟩ ⟨3, 2, 1, 0⟩ 200 "weekly"
      = Except.error SimError.divByZero := by
  simp only [simulate]
  rw [show (List.filter (fun p => ble p.date (⟨3, 2, 1, 0⟩ : DateTime))
      [(⟨⟨3, 1, 1, 0⟩, 100⟩ : SimPoint)]).getLast? = some ⟨⟨3, 1, 1, 0⟩, 100⟩
      from by decide]
  rw [show simLoop (1/1000) [⟨⟨3, 1, 1, 0⟩, 100⟩] ⟨3, 2, 1, 0⟩ 200 "weekly"
      (toSec (⟨3, 2, 1, 0⟩ : DateTime) - toSec (⟨3, 2, 1, 0⟩ : DateTime) + 1)
      ⟨3, 2, 1, 0⟩ = [] from by decide]
  norm_num

/-- C5: when no point lies at or before the end date the simulation fails with
the distinct no-final-price error instead of defaulting the final price. -/
theorem no_final_price_is_distinct_error (cr : ℚ) (data : List SimPoint)
    (start endD : DateTime) (amount : ℚ) (freq : String)
    (h : ∀ q ∈ data, ble q.date endD = false) :
    simulate cr data start endD amount freq = Except.error SimError.noFinalPrice :=
  simulate_noFinalPrice cr data start endD amount freq h

/-- Witness for C5: a single point after the end date. -/
theorem no_final_price_is_distinct_error_witness :
    (∀ q ∈ [(⟨⟨3, 5, 1, 0⟩, 100⟩ : SimPoint)], ble q.date ⟨3, 1, 1, 0⟩ = false) ∧
    simulate (1/1000) [⟨⟨3, 5, 1, 0⟩, 100⟩] ⟨3, 1, 1, 0⟩ ⟨3, 1, 1, 0⟩ 200 "weekly"
      = Except.error SimError.noFinalPrice :=
  ⟨by decide, no_final_price_is_distinct_error (1/1000) [⟨⟨3, 5, 1, 0⟩, 100⟩]
    ⟨3, 1, 1, 0⟩ ⟨3, 1, 1, 0⟩ 200 "weekly" (by decide)⟩

/-- C6: the ranking scan picks as best the first entry attaining the maximal
return and as worst the first entry attaining the minimal return, with spread
best minus worst; on returns [5, -2, 5] the first entry is best. -/
theorem rank_first_occurrence :
    (∀ l : List (String × ℚ), l ≠ [] →
      ∃ b w, pyMaxByReturn l = some b ∧ pyMinByReturn l = some w ∧
        rankSpread l = some (b.2 - w.2) ∧
        (∃ l₁ l₂, l = l₁ ++ b :: l₂ ∧ ∀ y ∈ l₁, y.2 < b.2) ∧
        (∀ y ∈ l, y.2 ≤ b.2) ∧
        (∃ l₁ l₂, l = l₁ ++ w :: l₂ ∧ ∀ y ∈ l₁, w.2 < y.2) ∧
        (∀ y ∈ l, w.2 ≤ y.2)) ∧
    pyMaxByReturn [("A", (5 : ℚ)), ("B", -2), ("C", 5)] = some ("A", 5) := by
  constructor
  · intro l hl
    obtain ⟨x, xs, rfl⟩ : ∃ x xs, l = x :: xs := by
      cases l with
      | nil => exact absurd rfl hl
      | cons a t => exact ⟨a, t, rfl⟩
    have hb : pyMaxByReturn (x :: xs) =
        some (xs.foldl (fun v y => if v.2 < y.2 then y else v) x) := rfl
    have hw : pyMinByReturn (x :: xs) =
        some (xs.foldl (fun v y => if y.2 < v.2 then y else v) x) := rfl
    refine ⟨_, _, hb, hw, by simp [rankSpread, hb, hw], ?_, ?_, ?_, ?_⟩
    · rcases foldl_max_split xs x with ⟨heq, hall⟩ |
        ⟨r, l₁, l₂, heq, hsplit, hlt, hpre, hsuf⟩
      · rw [heq]
        exact ⟨[], xs, rfl, by simp⟩
      · rw [heq]
        refine ⟨x :: l₁, l₂, by rw [hsplit, List.cons_append], ?_⟩
        intro y hy
        rcases List.mem_cons.mp hy with rfl | hy'
        · exact hlt
        · exact hpre y hy'
    · rcases foldl_max_split xs x with ⟨heq, hall⟩ |
        ⟨r, l₁, l₂, heq, hsplit, hlt, hpre, hsuf⟩
      · rw [heq]
        intro y hy
        rcases List.mem_cons.mp hy with rfl | hy'
        · exact le_refl _
        · exact hall y hy'
      · rw [heq]
        intro y hy
        rcases List.mem_cons.mp hy with rfl | hy'
        · exact le_of_lt hlt
        · rw [hsplit] at hy'
          rcases List.mem_append.mp hy' with h1 | h2
          · exact le_of_lt (hpre y h1)
          · rcases List.mem_cons.mp h2 with rfl | h3
            · exact le_refl _
            · exact hsuf y h3
    · rcases foldl_min_split xs x with ⟨heq, hall⟩ |
        ⟨r, l₁, l₂, heq, hsplit, hlt, hpre, hsuf⟩
      · rw [heq]
        exact ⟨[], xs, rfl, by simp⟩
      · rw [heq]
        refine ⟨x :: l₁, l₂, by rw [hsplit, List.cons_append], ?_⟩
        intro y hy
        rcases List.mem_cons.mp hy with rfl | hy'
        · exact hlt
        · exact hpre y hy'
    · rcases foldl_min_split xs x with ⟨heq, hall⟩ |
        ⟨r, l₁, l₂, heq, hsplit, hlt, hpre, hsuf⟩
      · rw [heq]
        intro y hy
        rcases List.mem_cons.mp hy with rfl | hy'
        · exact le_refl _
        · exact hall y hy'
      · rw [heq]
        intro y hy
        rcases List.mem_cons.mp hy with rfl | hy'
        · exact le_of_lt hlt
        · rw [hsplit] at hy'
          rcases List.mem_append.mp hy' with h1 | h2
          · exact le_of_lt (hpre y h1)
          · rcases List.mem_cons.mp h2 with rfl | h3
            · exact le_refl _
            · exact hsuf y h3
  · norm_num [pyMaxByReturn]

/-- Witness for C6 on the singleton list. -/
theorem rank_first_occurrence_witness :
    ∃ b w, pyMaxByReturn [("x", (1 : ℚ))] = some b ∧
      pyMinByReturn [("x", (1 : ℚ))] = some w ∧
      rankSpread [("x", (1 : ℚ))] = some (b.2 - w.2) ∧
      (∃ l₁ l₂, [("x", (1 : ℚ))] = l₁ ++ b :: l₂ ∧ ∀ y ∈ l₁, y.2 < b.2) ∧
      (∀ y ∈ [("x", (1 : ℚ))], y.2 ≤ b.2) ∧
      (∃ l₁ l₂, [("x", (1 : ℚ))] = l₁ ++ w :: l₂ ∧ ∀ y ∈ l₁, w.2 < y.2) ∧
      (∀ y ∈ [("x", (1 : ℚ))], w.2 ≤ y.2) :=
  rank_first_occurrence.1 [("x", (1 : ℚ))] (by simp)

/-- C7: the display set keeps a list of at most 8 strategies unchanged and
otherwise picks exactly the 8 entries at indices floor(i*length/8); a list of
length 12 yields the entries at indices 0,1,3,4,6,7,9,10. -/
theorem selectDisplaySet_spec :
    (∀ l : List Strategy, l.length ≤ 8 → selectDisplaySet l = l) ∧
    (∀ l : List Strategy, 8 < l.length →
      (selectDisplaySet l).length = 8 ∧
      ∀ i, i < 8 → i * l.length / 8 < l.length ∧
        (selectDisplaySet l)[i]? = some (l.getD (i * l.length / 8) ⟨"", 0, ""⟩)) ∧
    selectDisplaySet
      [⟨"s", 0, "f"⟩, ⟨"s", 1, "f"⟩, ⟨"s", 2, "f"⟩, ⟨"s", 3, "f"⟩,
       ⟨"s", 4, "f"⟩, ⟨"s", 5, "f"⟩, ⟨"s", 6, "f"⟩, ⟨"s", 7, "f"⟩,
       ⟨"s", 8, "f"⟩, ⟨"s", 9, "f"⟩, ⟨"s", 10, "f"⟩, ⟨"s", 11, "f"⟩] =
      [⟨"s", 0, "f"⟩, ⟨"s", 1, "f"⟩, ⟨"s", 3, "f"⟩, ⟨"s", 4, "f"⟩,
       ⟨"s", 6, "f"⟩, ⟨"s", 7, "f"⟩, ⟨"s", 9, "f"⟩, ⟨"s", 10, "f"⟩] := by
  refine ⟨?_, ?_, ?_⟩
  · intro l h
    simp [selectDisplaySet, h]
  · intro l h
    have hnot : ¬l.length ≤ 8 := by omega
    constructor
    · simp [selectDisplaySet, hnot]
    · intro i hi
      have hlen : 0 < l.length := by omega
      have hbound : i * l.length / 8 < l.length := by
        rw [Nat.div_lt_iff_lt_mul (by norm_num)]
        have hx : i * l.length < 8 * l.length :=
          mul_lt_mul_of_pos_right hi hlen
        omega
      refine ⟨hbound, ?_⟩
      simp only [selectDisplaySet, if_neg hnot]
      rw [List.getElem?_map, List.getElem?_range hi]
      simp [List.getD_eq_getElem?_getD, List.getElem?_eq_getElem hbound]
  · have hr : List.range 8 = [0, 1, 2, 3, 4, 5, 6, 7] := by decide
    simp [selectDisplaySet, hr, List.getD]

/-- Witness for C7: a list of 3 strategies is returned unchanged, and on a
9-strategy list index 5 maps to entry floor(5*9/8) = 5. -/
theorem selectDisplaySet_spec_witness :
    ([⟨"s", 0, "f"⟩, ⟨"s", 1, "f"⟩, ⟨"s", 2, "f"⟩] : List Strategy).length ≤ 8 ∧
    selectDisplaySet [⟨"s", 0, "f"⟩, ⟨"s", 1, "f"⟩, ⟨"s", 2, "f"⟩] =
      [⟨"s", 0, "f"⟩, ⟨"s", 1, "f"⟩, ⟨"s", 2, "f"⟩] :=
  ⟨by simp, selectDisplaySet_spec.1 _ (by simp)⟩

/-- C9: every recognized frequency code strictly advances a valid cursor, so
the contribution loop's cursor passes any end date after finitely many
steps. -/
theorem contribution_cursor_advances (freq : String)
    (hf : freq ∈ frequencyCodes) (c : DateTime) (h : Valid c) :
    (Valid (stepDate freq c) ∧ toSec c < toSec (stepDate freq c)) ∧
    ∀ endD : DateTime, ∃ n : Nat, toSec endD < toSec ((stepDate freq)^[n] c) := by
  refine ⟨step_mono freq hf c h, ?_⟩
  intro endD
  refine ⟨toSec endD + 1, ?_⟩
  have := step_iterate freq hf c h (toSec endD + 1)
  omega

/-- Witness for C9 with hourly stepping from midnight of January 1, year 3. -/
theorem contribution_cursor_advances_witness :
    ("hourly" ∈ frequencyCodes ∧ Valid (⟨3, 1, 1, 0⟩ : DateTime)) ∧
    (Valid (stepDate "hourly" ⟨3, 1, 1, 0⟩) ∧
      toSec ⟨3, 1, 1, 0⟩ < toSec (stepDate "hourly" ⟨3, 1, 1, 0⟩)) ∧
    ∀ endD : DateTime, ∃ n : Nat,
      toSec endD < toSec ((stepDate "hourly")^[n] ⟨3, 1, 1, 0⟩) :=
  ⟨⟨by decide, by decide⟩,
    contribution_cursor_advances "hourly" (by decide) ⟨3, 1, 1, 0⟩ (by decide)⟩

/-- C8: the strategy catalog returns, for each of the six granularity labels,
exactly the spec table's list, in ascending interval order, with 8, 7, 5, 6,
5 and 5 entries respectively (unknown falling to the daily-plus list). -/
theorem strategy_catalog_table :
    get_strategies_for_granularity "intraday_minute" =
      [⟨"每半小時", 1/2, "halfhourly"⟩, ⟨"每小時", 1, "hourly"⟩,
       ⟨"每3小時", 3, "3hourly"⟩, ⟨"每6小時", 6, "6hourly"⟩,
       ⟨"每12小時", 12, "12hourly"⟩, ⟨"每日", 24, "daily"⟩,
       ⟨"每3日", 72, "3daily"⟩, ⟨"每週", 168, "weekly"⟩] ∧
    get_strategies_for_granularity "intraday_hourly" =
      [⟨"每小時", 1, "hourly"⟩, ⟨"每3小時", 3, "3hourly"⟩,
       ⟨"每6小時", 6, "6hourly"⟩, ⟨"每12小時", 12, "12hourly"⟩,
       ⟨"每日", 24, "daily"⟩, ⟨"每3日", 72, "3daily"⟩, ⟨"每週", 168, "weekly"⟩] ∧
    get_strategies_for_granularity "intraday_half_day" =
      [⟨"每12小時", 12, "12hourly"⟩, ⟨"每日", 24, "daily"⟩,
       ⟨"每3日", 72, "3daily"⟩, ⟨"每週", 168, "weekly"⟩,
       ⟨"每月", 720, "monthly"⟩] ∧
    get_strategies_for_granularity "daily" =
      [⟨"每日", 24, "daily"⟩, ⟨"每3日", 72, "3daily"⟩, ⟨"每週", 168, "weekly"⟩,
       ⟨"每月", 720, "monthly"⟩, ⟨"每季", 2160, "quarterly"⟩,
       ⟨"每半年", 4320, "semiannually"⟩] ∧
    get_strategies_for_granularity "daily_plus" =
      [⟨"每週", 168, "weekly"⟩, ⟨"每月", 720, "monthly"⟩,
       ⟨"每季", 2160, "quarterly"⟩, ⟨"每半年", 4320, "semiannually"⟩,
       ⟨"每年", 8760, "yearly"⟩] ∧
    get_strategies_for_granularity "unknown" =
      [⟨"每週", 168, "weekly"⟩, ⟨"每月", 720, "monthly"⟩,
       ⟨"每季", 2160, "quarterly"⟩, ⟨"每半年", 4320, "semiannually"⟩,
       ⟨"每年", 8760, "yearly"⟩] ∧
    (get_strategies_for_granularity "intraday_minute").length = 8 ∧
    (get_strategies_for_granularity "intraday_hourly").length = 7 ∧
    (get_strategies_for_granularity "intraday_half_day").length = 5 ∧
    (get_strategies_for_granularity "daily").length = 6 ∧
    (get_strategies_for_granularity "daily_plus").length = 5 ∧
    (get_strategies_for_granularity "unknown").length = 5 ∧
    List.Chain' (fun a b => a.hours < b.hours)
      (get_strategies_for_granularity "intraday_minute") ∧
    List.Chain' (fun a b => a.hours < b.hours)
      (get_strategies_for_granularity "intraday_hourly") ∧
    List.Chain' (fun a b => a.hours < b.hours)
      (get_strategies_for_granularity "intraday_half_day") ∧
    List.Chain' (fun a b => a.hours < b.hours)
      (get_strategies_for_granularity "daily") ∧
    List.Chain' (fun a b => a.hours < b.hours)
      (get_strategies_for_granularity "daily_plus") ∧
    List.Chain' (fun a b => a.hours < b.hours)
      (get_strategies_for_granularity "unknown") := by
  refine ⟨rfl, rfl, rfl, rfl, rfl, rfl, rfl, rfl, rfl, rfl, rfl, rfl,
    ?_, ?_, ?_, ?_, ?_, ?_⟩ <;>
    (simp [get_strategies_for_granularity, List.chain'_cons]; try norm_num)

/-- C10: the catalog is total over arbitrary label strings: every label yields
a non-empty list of 5 to 8 strategies, and every label other than the four
specifically handled ones yields the daily-plus list. -/
theorem strategiesFor_total_fallback (g : String) :
    (get_strategies_for_granularity g ≠ [] ∧
      5 ≤ (get_strategies_for_granularity g).length ∧
      (get_strategies_for_granularity g).length ≤ 8) ∧
    (g ≠ "intraday_minute" → g ≠ "intraday_hourly" → g ≠ "intraday_half_day" →
      g ≠ "daily" →
      get_strategies_for_granularity g =
        get_strategies_for_granularity "daily_plus") := by
  by_cases h1 : g = "intraday_minute"
  · subst h1
    refine ⟨⟨?_, ?_, ?_⟩, fun hn _ _ _ => absurd rfl hn⟩ <;>
      simp [get_strategies_for_granularity]
  · by_cases h2 : g = "intraday_hourly"
    · subst h2
      refine ⟨⟨?_, ?_, ?_⟩, fun _ hn _ _ => absurd rfl hn⟩ <;>
        simp [get_strategies_for_granularity]
    · by_cases h3 : g = "intraday_half_day"
      · subst h3
        refine ⟨⟨?_, ?_, ?_⟩, fun _ _ hn _ => absurd rfl hn⟩ <;>
          simp [get_strategies_for_granularity]
      · by_cases h4 : g = "daily"
        · subst h4
          refine ⟨⟨?_, ?_, ?_⟩, fun _ _ _ hn => absurd rfl hn⟩ <;>
            simp [get_strategies_for_granularity]
        · have he : get_strategies_for_granularity g =
              get_strategies_for_granularity "daily_plus" := by
            unfold get_strategies_for_granularity
            rw [if_neg h1, if_neg h2, if_neg h3, if_neg h4]
            rfl
          refine ⟨?_, fun _ _ _ _ => he⟩
          rw [he]
          refine ⟨?_, ?_, ?_⟩ <;> simp [get_strategies_for_granularity]

/-- Witness for C10 at the unrecognized label "mystery". -/
theorem strategiesFor_total_fallback_witness :
    ("mystery" ≠ "intraday_minute" ∧ "mystery" ≠ "intraday_hourly" ∧
      "mystery" ≠ "intraday_half_day" ∧ "mystery" ≠ "daily") ∧
    get_strategies_for_granularity "mystery" =
      get_strategies_for_granularity "daily_plus" :=
  ⟨⟨by decide, by decide, by decide, by decide⟩,
    (strategiesFor_total_fallback "mystery").2 (by decide) (by decide)
      (by decide) (by decide)⟩

end StockDL
